import Mathlib

/-!
Verification of the takopi orchestration layer (heartbeat executor,
Telegram notification formatting/chunking, engine routing, classifier
fallback, heartbeat state persistence).

Each Python function under scrutiny is shallowly embedded as an
executable Lean definition translated directly from the source in
`src/takopi/...`.  Strings are modelled through their character lists;
Python `None`-able values become `Option`; the ambient environment
(clock, OS environment, network transport) is passed explicitly as
function arguments.
-/

namespace Takopi

/-! ### HTML escaping — `src/takopi/heartbeat/notify.py`

`_html_escaped_len` gives the per-character expansion of Python's
`html.escape` (quote=True): `&` → `&amp;` (5), `<`/`>` → `&lt;`/`&gt;`
(4), `"`/`'` → `&quot;`/`&#x27;` (6), anything else 1. -/

def html_escaped_len (c : Char) : Nat :=
  if c = '&' then 5
  else if c = '<' ∨ c = '>' then 4
  else if c = '"' ∨ c = '\'' then 6
  else 1

/-- Per-character expansion of `html.escape(s, quote=True)`:
`&`→`&amp;`, `<`→`&lt;`, `>`→`&gt;`, `"`→`&quot;`, `'`→`&#x27;`. -/
def escapeChar (c : Char) : List Char :=
  if c = '&' then ['&', 'a', 'm', 'p', ';']
  else if c = '<' then ['&', 'l', 't', ';']
  else if c = '>' then ['&', 'g', 't', ';']
  else if c = '"' then ['&', 'q', 'u', 'o', 't', ';']
  else if c = '\'' then ['&', '#', 'x', '2', '7', ';']
  else [c]

/-- Python `html.escape(s, quote=True)`.  The sequential `str.replace`
calls of the stdlib implementation (with `&` replaced first) coincide
with this character-wise map. -/
def html_escape (s : String) : String :=
  String.mk ((s.data.map escapeChar).flatten)

/-- Escaped length of a character list: sum of per-character expansions. -/
def escLenL (l : List Char) : Nat :=
  (l.map html_escaped_len).sum

/-- Escaped length of a string (sum over its characters of the
individual HTML escape expansion). -/
def escapedLen (s : String) : Nat :=
  escLenL s.data

/-! ### `_split_for_html_pre` — `src/takopi/heartbeat/notify.py`

The Python function is a pair of nested loops over indices into `text`.
`innerLoop` is the inner `while end < len(text)` loop, operating on the
suffix of the text that starts at the current chunk start; `e` counts
the characters consumed so far for this chunk (`end - start`), `el` is
`escaped_len`, `lb`/`lbl` mirror `last_break - start` and
`last_break_escaped_len`. -/

def innerLoop (budget : Nat) :
    List Char → Nat → Nat → Option Nat → Nat → Nat × Nat × Option Nat × Nat
  | [], e, el, lb, lbl => (e, el, lb, lbl)
  | c :: rest, e, el, lb, lbl =>
    let cl := html_escaped_len c
    if budget < el + cl then (e, el, lb, lbl)
    else if c = '\n' then innerLoop budget rest (e + 1) (el + cl) (some (e + 1)) (el + cl)
    else innerLoop budget rest (e + 1) (el + cl) lb lbl

/-- Length of the next chunk taken from the suffix `l` of the text:
the body of the outer `while start < len(text)` loop up to
`chunks.append`, expressed relative to the chunk start (`if end ==
start: end = start + 1; elif end < len(text) and last_break is not None
and last_break > start: end = last_break`). -/
def chunkLen (budget : Nat) (l : List Char) : Nat :=
  match innerLoop budget l 0 0 none 0 with
  | (e, _, lb, _) =>
    if e = 0 then 1
    else if e < l.length then
      match lb with
      | some p => if 0 < p then p else e
      | none => e
    else e

/-- The outer `while start < len(text)` loop of `_split_for_html_pre`:
peel off one chunk of `chunkLen` characters and continue on the rest.
Each iteration consumes at least one character (`chunkLen_pos`), so
`l.length` rounds of fuel always suffice; the explicit fuel keeps the
recursion structural so that concrete calls evaluate by `decide`. -/
def splitChunksAux (budget : Nat) : Nat → List Char → List (List Char)
  | 0, _ => []
  | _ + 1, [] => []
  | fuel + 1, c :: rest =>
    let l := c :: rest
    let n := chunkLen budget l
    l.take n :: splitChunksAux budget fuel (l.drop n)

def splitChunks (budget : Nat) (l : List Char) : List (List Char) :=
  splitChunksAux budget l.length l

/-- `_split_for_html_pre(text, max_escaped_chars)`: empty text yields no
chunks; the budget is clamped to at least 1 (`max(1, int(...))`). -/
def split_for_html_pre (text : String) (max_escaped_chars : Nat) : List String :=
  if text.data = [] then []
  else (splitChunks (max 1 max_escaped_chars) text.data).map String.mk

/-! ### Task classification — `src/takopi/classifier.py` -/

abbrev EngineId := String

inductive TaskType
  | coding
  | reasoning
  | quick
deriving DecidableEq, Repr

/-- `ClassificationResult`; the Python `confidence` float (0.7 / 0.9)
is modelled as an exact rational. -/
structure ClassificationResult where
  task_type : TaskType
  engine : EngineId
  model : Option String
  confidence : ℚ
  reason : String
deriving DecidableEq, Repr

/-- `ROUTING_TABLE` (its initial value; `update_routing` is outside the
claims). -/
def ROUTING_TABLE : TaskType → EngineId × Option String
  | .coding => ("codex", some "gpt-5.2")
  | .reasoning => ("claude", some "claude-opus-4-5-20251101")
  | .quick => ("claude", some "claude-3-5-haiku-20241022")

/-- Python `str.lower()`.  The prompts' keyword matching only involves
ASCII, which `Char.toLower` handles identically. -/
def pyLower (s : String) : String :=
  String.mk (s.data.map Char.toLower)

/-- Contiguous-sublist test: does `needle` occur inside `hay`? -/
def containsSub (hay needle : List Char) : Bool :=
  match hay with
  | [] => needle.isEmpty
  | _ :: t => needle.isPrefixOf hay || containsSub t needle

/-- Python `needle in hay` on strings: contiguous substring test. -/
def strContains (hay needle : String) : Bool :=
  containsSub hay.data needle.data

def coding_signals : List String :=
  ["fix", "implement", "refactor", "debug", "test", "build", "compile",
   "deploy", "commit", "merge", "push", "pull", "branch", "error", "bug",
   "exception", "traceback", "function", "class", "method", "variable",
   "import", "module", "package", "install", "dependency", "npm", "pip",
   "cargo", "make", "dockerfile", "yaml", "json", "config", "api",
   "endpoint", "database", "query", "migration", "schema", "type",
   "interface", "struct", "enum", "lint", "format", "prettier", "eslint",
   "ruff", "mypy"]

def quick_signals : List String :=
  ["what is", "what's", "how do", "how does", "explain", "summarize",
   "define", "meaning of", "difference between", "why is", "can you",
   "is it", "are there", "does it", "should i", "status", "check",
   "list", "show"]

/-- `sum(1 for signal in coding_signals if signal in prompt_lower)`. -/
def coding_score (prompt_lower : String) : Nat :=
  coding_signals.countP (fun signal => strContains prompt_lower signal)

/-- `any(signal in prompt_lower for signal in quick_signals)`. -/
def quick_match (prompt_lower : String) : Bool :=
  quick_signals.any (fun signal => strContains prompt_lower signal)

/-- `classify_with_keywords`: deterministic, total, side-effect-free
keyword/length fallback classifier. -/
def classify_with_keywords (prompt : String) : ClassificationResult :=
  let prompt_lower := pyLower prompt
  let prompt_len := prompt.length
  let tr : TaskType × String :=
    if 2 ≤ coding_score prompt_lower then
      (.coding, "keyword match: " ++ toString (coding_score prompt_lower) ++ " coding signals")
    else if prompt_len < 100 ∧ quick_match prompt_lower = true then
      (.quick, "short prompt with quick pattern")
    else if prompt_len < 50 then
      (.quick, "very short prompt")
    else
      (.reasoning, "default to reasoning for complex prompts")
  { task_type := tr.1
    engine := (ROUTING_TABLE tr.1).1
    model := (ROUTING_TABLE tr.1).2
    confidence := 7 / 10
    reason := "keyword: " ++ tr.2 }

/-! ### Engine resolution — `src/takopi/telegram/engine_defaults.py`

`resolve_engine_for_message` is an async function whose awaited
collaborator calls (`topic_store.get_default_engine`,
`chat_prefs.get_default_engine`, `runtime.project_default_engine`,
`classify_task`) are modelled as explicit function-valued arguments. -/

inductive EngineSource
  | directive
  | topic_default
  | chat_default
  | project_default
  | global_default
  | auto_classified
deriving DecidableEq, Repr

structure EngineResolution where
  engine : EngineId
  source : EngineSource
  topic_default : Option EngineId
  chat_default : Option EngineId
  project_default : Option EngineId
  classification : Option ClassificationResult
  model_override : Option String
deriving DecidableEq, Repr

/-- `topic_default = await topic_store.get_default_engine(*topic_key)`
when both the store and the key are present, else `None`. -/
def observed_topic_default (topic_store : Option (Int × Int → Option EngineId))
    (topic_key : Option (Int × Int)) : Option EngineId :=
  match topic_store, topic_key with
  | some store, some key => store key
  | _, _ => none

/-- `chat_default = await chat_prefs.get_default_engine(chat_id)` when
the prefs store is present, else `None`. -/
def observed_chat_default (chat_prefs : Option (Int → Option EngineId))
    (chat_id : Int) : Option EngineId :=
  match chat_prefs with
  | some prefs => prefs chat_id
  | none => none

/-- `resolve_engine_for_message`.  `project_default_engine` is the
value of `runtime.project_default_engine(context)` and
`default_engine` is `runtime.default_engine`; `classify_task` models
`await classify_task(prompt, use_llm=True)`. -/
def resolve_engine_for_message
    (project_default_engine : Option EngineId)
    (default_engine : EngineId)
    (classify_task : String → ClassificationResult)
    (explicit_engine : Option EngineId)
    (chat_id : Int)
    (topic_key : Option (Int × Int))
    (topic_store : Option (Int × Int → Option EngineId))
    (chat_prefs : Option (Int → Option EngineId))
    (prompt : Option String)
    (auto_classify : Bool) : EngineResolution :=
  let topic_default := observed_topic_default topic_store topic_key
  let chat_default := observed_chat_default chat_prefs chat_id
  let project_default := project_default_engine
  match explicit_engine with
  | some e =>
    { engine := e, source := .directive, topic_default := topic_default,
      chat_default := chat_default, project_default := project_default,
      classification := none, model_override := none }
  | none =>
  match topic_default with
  | some t =>
    { engine := t, source := .topic_default, topic_default := topic_default,
      chat_default := chat_default, project_default := project_default,
      classification := none, model_override := none }
  | none =>
  match chat_default with
  | some c =>
    { engine := c, source := .chat_default, topic_default := topic_default,
      chat_default := chat_default, project_default := project_default,
      classification := none, model_override := none }
  | none =>
  match project_default with
  | some p =>
    { engine := p, source := .project_default, topic_default := topic_default,
      chat_default := chat_default, project_default := project_default,
      classification := none, model_override := none }
  | none =>
  match auto_classify, prompt with
  | true, some pr =>
    let classification := classify_task pr
    { engine := classification.engine, source := .auto_classified,
      topic_default := topic_default, chat_default := chat_default,
      project_default := project_default, classification := some classification,
      model_override := classification.model }
  | _, _ =>
    { engine := default_engine, source := .global_default,
      topic_default := topic_default, chat_default := chat_default,
      project_default := project_default, classification := none,
      model_override := none }

/-! ### Heartbeat state — `src/takopi/heartbeat/state.py`

Numeric usage values (e.g. `total_cost_usd`, a Python float) are
modelled as exact fixed-point integers in units of 10⁻⁴ USD. -/

abbrev Usage := List (String × Int)

structure HeartbeatRun where
  started_at : String
  completed_at : Option String
  ok : Bool
  duration_ms : Option Nat
  usage : Option Usage
  error : Option String
deriving DecidableEq, Repr

structure HeartbeatState where
  name : String
  session_id : Option String
  last_run_at : Option String
  runs : List HeartbeatRun
  max_runs : Nat
deriving DecidableEq, Repr

/-- Python slice `l[-m:]`: for `m = 0` the start index `-0` is `0`, so
the whole list is kept; for `m > 0` the last `min m (len l)` elements
are kept. -/
def sliceLastPy {α : Type} (l : List α) (m : Nat) : List α :=
  if m = 0 then l else l.drop (l.length - m)

/-- `save_state`: trims `state.runs` to `max_runs` when oversized
(`state.runs = state.runs[-state.max_runs:]`), then persists; the
returned value is the state as written to disk. -/
def save_state (state : HeartbeatState) : HeartbeatState :=
  if state.max_runs < state.runs.length then
    { state with runs := sliceLastPy state.runs state.max_runs }
  else state

def runA : HeartbeatRun :=
  { started_at := "2026-01-01T00:00:00+00:00", completed_at := none, ok := false,
    duration_ms := none, usage := none, error := none }

def runB : HeartbeatRun :=
  { started_at := "2026-01-02T00:00:00+00:00", completed_at := none, ok := true,
    duration_ms := some 5, usage := none, error := none }

/-! ### Prompt expansion — `src/takopi/heartbeat/executor.py`

`expand_env_vars` substitutes `ENV_VAR_RE = \$\{([A-Za-z_][A-Za-z0-9_]*)\}`
via `re.sub` with a callback.  The clock (`datetime.now()` formatted as
`%Y-%m-%d` / `%H:%M`) and `os.environ.get` are explicit arguments. -/

def lbrace : Char := Char.ofNat 123

def rbrace : Char := Char.ofNat 125

/-- `[A-Za-z_]`, the first character of an `ENV_VAR_RE` name. -/
def isNameStart (c : Char) : Bool := c.isAlpha || c = '_'

/-- `[A-Za-z0-9_]`, the remaining characters of an `ENV_VAR_RE` name. -/
def isNameChar (c : Char) : Bool := c.isAlphanum || c = '_'

/-- Try to read `NAME}` (a regex match of `ENV_VAR_RE` minus its `${`
opener) at the head of the character list; on success return the name
and the characters after the closing brace.  The regex' greedy
`[A-Za-z0-9_]*` followed by the mandatory `}` is maximal munch: name
characters never include `}`. -/
def parseVarName : List Char → Option (List Char × List Char)
  | [] => none
  | c :: rest =>
    if isNameStart c then
      match rest.dropWhile isNameChar with
      | d :: tail =>
        if d = rbrace then some (c :: rest.takeWhile isNameChar, tail) else none
      | [] => none
    else none

/-- The `replace` callback of `expand_env_vars`: built-ins (`TODAY`,
`NOW`) are checked before the environment; an unset variable leaves
the match text (`match.group(0)`) verbatim. -/
def replaceVar (today now : String) (env : String → Option String)
    (name : List Char) : List Char :=
  if String.mk name = "TODAY" then today.data
  else if String.mk name = "NOW" then now.data
  else
    match env (String.mk name) with
    | some v => v.data
    | none => '$' :: lbrace :: (name ++ [rbrace])

/-- `ENV_VAR_RE.sub(replace, text)`: scan left to right; at each `${`
that opens a well-formed reference, substitute and continue after the
closing brace; everything else is copied through (the regex engine
advances one position on a failed match, which is the same thing). -/
def expandChars (today now : String) (env : String → Option String) :
    List Char → List Char
  | [] => []
  | c :: rest =>
    if c = '$' then
      match rest with
      | c2 :: rest2 =>
        if c2 = lbrace then
          match h : parseVarName rest2 with
          | some (name, tail) =>
            replaceVar today now env name ++ expandChars today now env tail
          | none => c :: expandChars today now env (c2 :: rest2)
        else c :: expandChars today now env (c2 :: rest2)
      | [] => [c]
    else c :: expandChars today now env rest
termination_by l => l.length
decreasing_by
  all_goals simp only [List.length_cons]
  · rename_i rest2 hlb
    have hlt : tail.length < rest2.length := by
      rcases rest2 with _ | ⟨c0, rest0⟩
      · simp [parseVarName] at h
      · simp only [parseVarName] at h
        split at h
        · generalize hdw : rest0.dropWhile isNameChar = dw at h
          have hlen : dw.length ≤ rest0.length := by
            rw [← hdw]
            exact (List.dropWhile_sublist isNameChar).length_le
          rcases dw with _ | ⟨d, t⟩
          · simp at h
          · dsimp only at h
            split at h
            · have htail : t = tail := congrArg Prod.snd (Option.some.inj h)
              subst htail
              simp only [List.length_cons] at hlen ⊢
              omega
            · simp at h
        · simp at h
    omega
  · omega
  · omega
  · omega

/-- `expand_env_vars(text)` with the clock and environment explicit. -/
def expand_env_vars (today now : String) (env : String → Option String)
    (text : String) : String :=
  String.mk (expandChars today now env text.data)

/-- The literal reference text `${NAME}`. -/
def varRef (name : String) : String :=
  String.mk ('$' :: lbrace :: (name.data ++ [rbrace]))

/-- A well-formed `ENV_VAR_RE` variable name. -/
def isValidVarName (name : List Char) : Bool :=
  match name with
  | [] => false
  | c :: rest => isNameStart c && rest.all isNameChar

/-! ### Heartbeat execution — `src/takopi/heartbeat/executor.py`

`run_heartbeat` drives `runner.run(prompt, resume_token)` — an async
event stream — and then updates and persists the state.  The stream is
modelled as the list of events the engine yielded, plus an optional
exception raised after them (`except Exception as exc` records
`str(exc)` as the error with `ok = False` while keeping everything
captured so far). -/

inductive SessionEvent
  | started (resume : String)
  | completed (ok : Bool) (answer : String) (error : Option String)
      (usage : Option Usage) (resume : Option String)
deriving DecidableEq, Repr

structure RunAcc where
  session_id : Option String
  answer : String
  error : Option String
  ok : Bool
  usage : Option Usage
deriving DecidableEq, Repr

/-- One turn of the `async for event in runner.run(...)` loop. -/
def stepEvent (acc : RunAcc) : SessionEvent → RunAcc
  | .started r => { acc with session_id := some r }
  | .completed ok answer error usage resume =>
    { session_id :=
        match resume with
        | some r => some r
        | none => acc.session_id,
      answer := answer, error := error, ok := ok, usage := usage }

/-- The whole event-consumption block of `run_heartbeat`, starting from
`session_id = state.session_id`. -/
def runEvents (init_session : Option String) (events : List SessionEvent)
    (exc : Option String) : RunAcc :=
  let acc := events.foldl stepEvent
    { session_id := init_session, answer := "", error := none, ok := false, usage := none }
  match exc with
  | some msg => { acc with error := some msg, ok := false }
  | none => acc

/-- The run record `run_heartbeat` appends to `state.runs`. -/
def heartbeat_run_record (started_at completed_at : String) (duration_ms : Nat)
    (acc : RunAcc) : HeartbeatRun :=
  { started_at := started_at, completed_at := some completed_at, ok := acc.ok,
    duration_ms := some duration_ms, usage := acc.usage, error := acc.error }

/-- The state-update tail of `run_heartbeat`: set `session_id` and
`last_run_at`, append the run record, persist through `save_state`;
the returned value is the state as persisted. -/
def run_heartbeat_saved (state : HeartbeatState) (events : List SessionEvent)
    (exc : Option String) (started_at completed_at : String)
    (duration_ms : Nat) : HeartbeatState :=
  let acc := runEvents state.session_id events exc
  save_state
    { state with
      session_id := acc.session_id,
      last_run_at := some completed_at,
      runs := state.runs ++ [heartbeat_run_record started_at completed_at duration_ms acc] }

/-- Does the event carry a resume token?  `StartedEvent` always does
(`event.resume.value`); `CompletedEvent` only when `event.resume` is
set. -/
def eventHasResume : SessionEvent → Bool
  | .started _ => true
  | .completed _ _ _ _ resume => resume.isSome

/-! ### Notification delivery — `src/takopi/cli/heartbeat.py`

The delivery loop of `_run_heartbeat`:
`for idx, message in enumerate(messages): ok = await
send_telegram_notification(..., disable_notification=True if idx > 0
else None); if not ok: break`.  `send_ok idx` models the boolean the
transport returns for the idx-th call (`send_telegram_notification`
returns `False` instead of raising).  The result lists, in order, the
calls actually performed as (message, disable_notification). -/

def deliverFrom (send_ok : Nat → Bool) : Nat → List String → List (String × Option Bool)
  | _, [] => []
  | idx, message :: rest =>
    let flag : Option Bool := if 0 < idx then some true else none
    (message, flag) :: (if send_ok idx then deliverFrom send_ok (idx + 1) rest else [])

def deliver_notifications (send_ok : Nat → Bool) (messages : List String) :
    List (String × Option Bool) :=
  deliverFrom send_ok 0 messages

/-! ### Notification formatting — `src/takopi/heartbeat/notify.py` -/

def TELEGRAM_MESSAGE_MAX_CHARS : Nat := 4096

/-- `len("<pre></pre>")`. -/
def PRE_OVERHEAD_CHARS : Nat := ("<pre></pre>" : String).length

/-- Python `str.strip()`: whitespace removed at both ends.  Python
strips Unicode whitespace; `Char.isWhitespace` covers the ASCII
subset, which is what the formatter's inputs use. -/
def pyStrip (s : String) : String :=
  String.mk (((s.data.dropWhile Char.isWhitespace).reverse.dropWhile
    Char.isWhitespace).reverse)

/-- Python `str.split("\n")`. -/
def splitLines : List Char → List (List Char)
  | [] => [[]]
  | c :: rest =>
    match splitLines rest with
    | [] => [[]]
    | h :: t => if c = '\n' then [] :: h :: t else (c :: h) :: t

/-- Python `"\n".join(...)`. -/
def joinNl : List String → String
  | [] => ""
  | [p] => p
  | p :: rest => p ++ "\n" ++ joinNl rest

/-- `_extract_summary`: the last `summary_lines` non-empty lines of the
stripped answer; the `lines[-summary_lines:]` slice is `sliceLastPy`. -/
def extract_summary (answer : String) (summary_lines : Nat) : String :=
  if answer = "" then ""
  else
    let lines := ((splitLines (pyStrip answer).data).map String.mk).filter
      (fun line => pyStrip line ≠ "")
    let lines2 :=
      if summary_lines < lines.length then sliceLastPy lines summary_lines else lines
    joinNl lines2

/-- Duration rendering: `f"{duration_s:.1f}s"` under 60 s, else
`f"{minutes}m{seconds}s"` with `minutes = int(duration_s // 60)` and
`seconds = int(duration_s % 60)`.  The float `duration_ms / 1000` and
its one-decimal format are modelled as exact decimal rounding of the
milliseconds to tenths (half away from zero); IEEE double formatting
can differ on exact `.x5` ties.  `int(...)`, `//` and `%` coincide
with Nat arithmetic on `duration_ms`. -/
def formatDuration (duration_ms : Nat) : String :=
  if duration_ms < 60000 then
    let tenths := (duration_ms + 50) / 100
    toString (tenths / 10) ++ "." ++ toString (tenths % 10) ++ "s"
  else
    let s := duration_ms / 1000
    toString (s / 60) ++ "m" ++ toString (s % 60) ++ "s"

/-- `if result.usage and "total_cost_usd" in result.usage`: Python dict
truthiness makes `None` and the empty dict contribute no cost. -/
def costOf (usage : Option Usage) : Option Int :=
  match usage with
  | none => none
  | some u => if u = [] then none else u.lookup "total_cost_usd"

def pad4 (n : Nat) : String :=
  if n < 10 then "000" ++ toString n
  else if n < 100 then "00" ++ toString n
  else if n < 1000 then "0" ++ toString n
  else toString n

/-- `f"{cost:.4f}"` for a cost carried as fixed-point 10⁻⁴ USD. -/
def formatCost4 (c : Int) : String :=
  (if c < 0 then "-" else "")
    ++ toString (c.natAbs / 10000) ++ "." ++ pad4 (c.natAbs % 10000)

structure HeartbeatResult where
  ok : Bool
  answer : String
  session_id : Option String
  duration_ms : Nat
  usage : Option Usage
  error : Option String
deriving DecidableEq, Repr

/-- The first message built by `format_notification_messages`:
`"\n".join(parts)` with `parts = [f"<b>{status_emoji} {html.escape(name)}</b>",
f"Duration: {duration_str}{cost_str}"]` plus the error line when
`result.error` is truthy (`error[:500]`, escaped). -/
def notification_header (name : String) (result : HeartbeatResult) : String :=
  let status_emoji := if result.ok then "✅" else "❌"
  let duration_str := formatDuration result.duration_ms
  let cost_str :=
    match costOf result.usage with
    | some c => " ($" ++ formatCost4 c ++ ")"
    | none => ""
  let parts := ["<b>" ++ status_emoji ++ " " ++ html_escape name ++ "</b>",
                "Duration: " ++ duration_str ++ cost_str]
  let parts2 :=
    match result.error with
    | some e =>
      if e = "" then parts
      else parts ++ ["<b>Error:</b> " ++ html_escape (String.mk (e.data.take 500))]
    | none => parts
  joinNl parts2

/-- `format_notification_messages`: the header message followed by the
summary `<pre>` chunks (the default `summary_lines` is 10). -/
def format_notification_messages (name : String) (result : HeartbeatResult)
    (summary_lines : Nat) : List String :=
  let messages := [notification_header name result]
  let summary := extract_summary result.answer summary_lines
  if summary = "" then messages
  else
    messages
      ++ (split_for_html_pre summary
            (TELEGRAM_MESSAGE_MAX_CHARS - PRE_OVERHEAD_CHARS)).map
          (fun chunk => "<pre>" ++ html_escape chunk ++ "</pre>")

@[simp] theorem escLenL_nil : escLenL [] = 0 := rfl

@[simp] theorem escLenL_cons (c : Char) (l : List Char) :
    escLenL (c :: l) = html_escaped_len c + escLenL l := by
  simp [escLenL]

theorem html_escaped_len_le_six (c : Char) : html_escaped_len c ≤ 6 := by
  unfold html_escaped_len
  split
  · omega
  · split
    · omega
    · split <;> omega

theorem escapeChar_length (c : Char) :
    (escapeChar c).length = html_escaped_len c := by
  by_cases h1 : c = '&' <;> by_cases h2 : c = '<' <;> by_cases h3 : c = '>' <;>
    by_cases h4 : c = '"' <;> by_cases h5 : c = '\'' <;>
    simp [escapeChar, html_escaped_len, h1, h2, h3, h4, h5]

theorem chunkLen_pos (budget : Nat) (l : List Char) : 0 < chunkLen budget l := by
  unfold chunkLen
  rcases innerLoop budget l 0 0 none 0 with ⟨e, el, lb, lbl⟩
  rcases lb with _ | p <;> dsimp only <;> split_ifs <;> omega

example : split_for_html_pre "hello" 2 = ["he", "ll", "o"] := by decide
example : split_for_html_pre "a&b" 5 = ["a", "&", "b"] := by decide
example : split_for_html_pre "ab\ncd" 4 = ["ab\n", "cd"] := by decide
example : split_for_html_pre "&" 1 = ["&"] := by decide

theorem escLenL_take_le (l : List Char) (n : Nat) :
    escLenL (l.take n) ≤ escLenL l := by
  conv_rhs => rw [← List.take_append_drop n l]
  simp only [escLenL, List.map_append, List.sum_append]
  omega

theorem escLenL_take_mono (l : List Char) {n m : Nat} (h : n ≤ m) :
    escLenL (l.take n) ≤ escLenL (l.take m) := by
  have : l.take n = (l.take m).take n := by
    rw [List.take_take, Nat.min_eq_left h]
  rw [this]
  exact escLenL_take_le _ _

/-- Invariant of the inner scanning loop: the consumed count only
grows, never beyond the remaining text; `escaped_len` is exactly the
escaped length of the consumed prefix and never exceeds the budget; a
recorded `last_break` position lies within the consumed prefix. -/
theorem innerLoop_inv (b : Nat) (rest : List Char) :
    ∀ (e el : Nat) (lb : Option Nat) (lbl : Nat),
      (∀ q ∈ lb, q ≤ e) →
      e ≤ (innerLoop b rest e el lb lbl).1 ∧
      (innerLoop b rest e el lb lbl).1 - e ≤ rest.length ∧
      (innerLoop b rest e el lb lbl).2.1
        = el + escLenL (rest.take ((innerLoop b rest e el lb lbl).1 - e)) ∧
      (el ≤ b → (innerLoop b rest e el lb lbl).2.1 ≤ b) ∧
      (∀ p ∈ (innerLoop b rest e el lb lbl).2.2.1, p ≤ (innerLoop b rest e el lb lbl).1) := by
  induction rest with
  | nil =>
    intro e el lb lbl hlb
    simpa [innerLoop] using hlb
  | cons c rest ih =>
    intro e el lb lbl hlb
    simp only [innerLoop]
    by_cases hb : b < el + html_escaped_len c
    · simpa [hb] using hlb
    · simp only [if_neg hb]
      have hstep : ∀ (lb' : Option Nat) (lbl' : Nat), (∀ q ∈ lb', q ≤ e + 1) →
          e ≤ (innerLoop b rest (e + 1) (el + html_escaped_len c) lb' lbl').1 ∧
          (innerLoop b rest (e + 1) (el + html_escaped_len c) lb' lbl').1 - e ≤ rest.length + 1 ∧
          (innerLoop b rest (e + 1) (el + html_escaped_len c) lb' lbl').2.1
            = el + escLenL ((c :: rest).take
                ((innerLoop b rest (e + 1) (el + html_escaped_len c) lb' lbl').1 - e)) ∧
          (el ≤ b → (innerLoop b rest (e + 1) (el + html_escaped_len c) lb' lbl').2.1 ≤ b) ∧
          (∀ p ∈ (innerLoop b rest (e + 1) (el + html_escaped_len c) lb' lbl').2.2.1,
            p ≤ (innerLoop b rest (e + 1) (el + html_escaped_len c) lb' lbl').1) := by
        intro lb' lbl' hlb'
        obtain ⟨h1, h2, h3, h4, h5⟩ :=
          ih (e + 1) (el + html_escaped_len c) lb' lbl' hlb'
        refine ⟨by omega, by omega, ?_, fun hel => h4 (by omega), h5⟩
        have hgap : (innerLoop b rest (e + 1) (el + html_escaped_len c) lb' lbl').1 - e
            = ((innerLoop b rest (e + 1) (el + html_escaped_len c) lb' lbl').1 - (e + 1)) + 1 := by
          omega
        rw [hgap, List.take_succ_cons, escLenL_cons, h3]
        omega
      by_cases hc : c = '\n'
      · simp only [if_pos hc]
        exact hstep (some (e + 1)) (el + html_escaped_len c) (by simp)
      · simp only [if_neg hc]
        exact hstep lb lbl (fun q hq => Nat.le_succ_of_le (hlb q hq))

/-- When every character of the text fits the budget on its own
(`6 ≤ budget` suffices, 6 being the largest single-character
expansion), the chunk cut from any suffix stays within the budget. -/
theorem escLenL_chunk_le (b : Nat) (hb : 6 ≤ b) (l : List Char) :
    escLenL (l.take (chunkLen b l)) ≤ b := by
  obtain ⟨h1, h2, h3, h4, h5⟩ := innerLoop_inv b l 0 0 none 0 (by simp)
  rcases hres : innerLoop b l 0 0 none 0 with ⟨e, el, lb, lbl⟩
  rw [hres] at h1 h2 h3 h4 h5
  simp only at h1 h2 h3 h4 h5
  have hel : el = escLenL (l.take e) := by simpa using h3
  have helb : el ≤ b := h4 (by omega)
  have hforced : l ≠ [] → e = 0 → b < html_escaped_len l.headI := by
    intro hne he
    rcases l with _ | ⟨c, rest⟩
    · exact absurd rfl hne
    · simp only [List.headI]
      by_contra hlt
      push_neg at hlt
      simp only [innerLoop] at hres
      rw [if_neg (by omega)] at hres
      split at hres
      · have h1' := (innerLoop_inv b rest (0 + 1) (0 + html_escaped_len c)
          (some (0 + 1)) (0 + html_escaped_len c) (by simp)).1
        rw [hres] at h1'
        simp only at h1'
        omega
      · have h1' := (innerLoop_inv b rest (0 + 1) (0 + html_escaped_len c) none 0
          (by simp)).1
        rw [hres] at h1'
        simp only at h1'
        omega
  unfold chunkLen
  rw [hres]
  dsimp only
  by_cases he : e = 0
  · rcases l with _ | ⟨c, rest⟩
    · simp [he]
    · exfalso
      have hbig := hforced (by simp) he
      have hle := html_escaped_len_le_six (c :: rest).headI
      omega
  · simp only [if_neg he]
    split
    · rcases lb with _ | p
      · exact hel ▸ helb
      · dsimp only
        have hp : p ≤ e := h5 p (by simp)
        split
        · calc escLenL (l.take p) ≤ escLenL (l.take e) := escLenL_take_mono l hp
            _ ≤ b := hel ▸ helb
        · exact hel ▸ helb
    · exact hel ▸ helb

/-- Every chunk produced by the outer loop stays within the budget,
provided the budget is at least the largest single-character escape
expansion (6). -/
theorem splitChunksAux_escLen_le (b : Nat) (hb : 6 ≤ b) :
    ∀ (fuel : Nat) (l : List Char), ∀ ch ∈ splitChunksAux b fuel l, escLenL ch ≤ b := by
  intro fuel
  induction fuel with
  | zero => intro l ch h; simp [splitChunksAux] at h
  | succ fuel ih =>
    intro l ch h
    rcases l with _ | ⟨c, rest⟩
    · simp [splitChunksAux] at h
    · simp only [splitChunksAux, List.mem_cons] at h
      rcases h with h | h
      · subst h
        exact escLenL_chunk_le b hb (c :: rest)
      · exact ih _ ch h

/-- Chunks of the outer loop concatenate back to the input, for any
fuel at least the input's length. -/
theorem splitChunksAux_flatten (b : Nat) :
    ∀ (fuel : Nat) (l : List Char), l.length ≤ fuel →
      (splitChunksAux b fuel l).flatten = l := by
  intro fuel
  induction fuel with
  | zero =>
    intro l hl
    have : l = [] := List.length_eq_zero.mp (by omega)
    subst this
    simp [splitChunksAux]
  | succ fuel ih =>
    intro l hl
    rcases l with _ | ⟨c, rest⟩
    · simp [splitChunksAux]
    · simp only [splitChunksAux, List.flatten_cons]
      rw [ih ((c :: rest).drop (chunkLen b (c :: rest)))
        (by
          have := chunkLen_pos b (c :: rest)
          simp only [List.length_drop, List.length_cons] at *
          omega)]
      exact List.take_append_drop _ _

/-- The outer loop produces at most one chunk per source character, and
every chunk is non-empty. -/
theorem splitChunksAux_count (b : Nat) :
    ∀ (fuel : Nat) (l : List Char),
      (splitChunksAux b fuel l).length ≤ l.length ∧
      ∀ ch ∈ splitChunksAux b fuel l, ch ≠ [] := by
  intro fuel
  induction fuel with
  | zero => intro l; simp [splitChunksAux]
  | succ fuel ih =>
    intro l
    rcases l with _ | ⟨c, rest⟩
    · simp [splitChunksAux]
    · obtain ⟨ihlen, ihne⟩ := ih ((c :: rest).drop (chunkLen b (c :: rest)))
      have hpos := chunkLen_pos b (c :: rest)
      have hdrop : ((c :: rest).drop (chunkLen b (c :: rest))).length
          = (rest.length + 1) - chunkLen b (c :: rest) := by
        simp [List.length_drop]
      constructor
      · simp only [splitChunksAux, List.length_cons]
        rw [hdrop] at ihlen
        omega
      · intro ch h
        simp only [splitChunksAux, List.mem_cons] at h
        rcases h with h | h
        · subst h
          intro hcontra
          have hlen0 : ((c :: rest).take (chunkLen b (c :: rest))).length = 0 := by
            rw [hcontra]
            rfl
          rw [List.length_take] at hlen0
          simp only [List.length_cons] at hlen0
          omega
        · exact ihne ch h

/-- C1: the claim as frozen quantifies over every budget, but the
forced-progress branch (`if end == start: end = start + 1`) emits a
single character even when that character's escape expansion alone
exceeds the budget: with budget 1 the text `"&"` yields the chunk `"&"`
of escaped length 5 > 1. -/
theorem c1_budget_counterexample :
    split_for_html_pre "&" 1 = ["&"] ∧ escapedLen "&" = 5 ∧ ¬ escapedLen "&" ≤ 1 :=
  ⟨by decide, by decide, by decide⟩

/-- C1 (amended): whenever the configured budget is at least 6 — the
largest single-character escape expansion, so in particular for the
wired-in budget 4096 − 11 — every chunk returned by
`_split_for_html_pre` has escaped length (sum over its characters of
the individual HTML escape expansion) at most the budget. -/
theorem c1_chunks_within_budget (text : String) (budget : Nat) (hb : 6 ≤ budget) :
    ∀ chunk ∈ split_for_html_pre text budget, escapedLen chunk ≤ budget := by
  intro chunk hch
  unfold split_for_html_pre at hch
  split at hch
  · simp at hch
  · simp only [List.mem_map] at hch
    obtain ⟨cs, hcs, rfl⟩ := hch
    have h := splitChunksAux_escLen_le (max 1 budget) (by omega) text.data.length
      text.data cs hcs
    have hmax : max 1 budget = budget := by omega
    rw [hmax] at h
    simpa [escapedLen] using h

theorem c1_chunks_within_budget_witness : escapedLen "a<b" ≤ 10 :=
  c1_chunks_within_budget "a<b" 10 (by decide) "a<b" (by decide)

/-- C2: for every input text and every budget, concatenating all chunks
returned by `_split_for_html_pre` in order reproduces the original text
exactly. -/
theorem c2_chunks_roundtrip (text : String) (budget : Nat) :
    String.join (split_for_html_pre text budget) = text := by
  unfold split_for_html_pre
  split
  · rename_i h
    cases text
    simp_all [String.join]
  · apply String.ext
    rw [String.data_join, List.map_map]
    have hid : (String.data ∘ String.mk) = id := rfl
    rw [hid, List.map_id]
    exact splitChunksAux_flatten (max 1 budget) text.data.length text.data (le_refl _)

/-- C3: `_split_for_html_pre` always makes progress — every chunk is
non-empty and there are at most as many chunks as source characters, so
the splitter terminates even on runs of characters whose individual
escape expansion exceeds the budget. -/
theorem c3_progress_and_chunk_count (text : String) (budget : Nat) :
    (split_for_html_pre text budget).length ≤ text.length ∧
    ∀ chunk ∈ split_for_html_pre text budget, chunk ≠ "" := by
  have hlen : text.length = text.data.length := rfl
  unfold split_for_html_pre
  split
  · rename_i h
    constructor
    · simp
    · simp
  · obtain ⟨hcount, hne⟩ := splitChunksAux_count (max 1 budget) text.data.length text.data
    constructor
    · rw [List.length_map, hlen]
      exact hcount
    · intro chunk hch
      simp only [List.mem_map] at hch
      obtain ⟨cs, hcs, rfl⟩ := hch
      intro hcontra
      exact hne cs hcs (congrArg String.data hcontra)

theorem c3_progress_witness :
    (split_for_html_pre "ab" 1).length ≤ "ab".length ∧ "a" ≠ "" :=
  ⟨(c3_progress_and_chunk_count "ab" 1).1,
   (c3_progress_and_chunk_count "ab" 1).2 "a" (by decide)⟩

example : (classify_with_keywords "fix the bug").task_type = .coding := by decide
example : (classify_with_keywords "what is rust?").task_type = .quick := by decide
example : (classify_with_keywords "hi").task_type = .quick := by decide

/-- C5: the keyword fallback classifier is a total pure function (it is
a Lean `def`, hence deterministic and side-effect-free) that picks the
coding category on ≥ 2 coding-keyword matches in the lowercased prompt;
otherwise the quick category for short text (< 100 characters) matching
an interrogative/lookup keyword, or for text under 50 characters;
otherwise the reasoning category — and routes engine/model through the
routing table. -/
theorem c5_keyword_fallback (prompt : String) :
    (2 ≤ coding_score (pyLower prompt) →
      (classify_with_keywords prompt).task_type = .coding) ∧
    (coding_score (pyLower prompt) < 2 → prompt.length < 100 →
      quick_match (pyLower prompt) = true →
      (classify_with_keywords prompt).task_type = .quick) ∧
    (coding_score (pyLower prompt) < 2 → prompt.length < 50 →
      (classify_with_keywords prompt).task_type = .quick) ∧
    (coding_score (pyLower prompt) < 2 →
      ¬(prompt.length < 100 ∧ quick_match (pyLower prompt) = true) →
      50 ≤ prompt.length →
      (classify_with_keywords prompt).task_type = .reasoning) ∧
    (classify_with_keywords prompt).engine
      = (ROUTING_TABLE (classify_with_keywords prompt).task_type).1 ∧
    (classify_with_keywords prompt).model
      = (ROUTING_TABLE (classify_with_keywords prompt).task_type).2 := by
  unfold classify_with_keywords
  dsimp only
  split_ifs with h1 h2 h3 <;>
    refine ⟨?_, ?_, ?_, ?_, rfl, rfl⟩ <;> intros <;>
      first
        | rfl
        | omega
        | tauto

theorem c5_keyword_fallback_witness :
    (classify_with_keywords "fix the bug in the test").task_type = TaskType.coding :=
  (c5_keyword_fallback "fix the bug in the test").1 (by decide)

/-- C4: resolution precedence.  An explicit engine always wins with
source `directive`; otherwise the most specific configured default wins
in order topic → chat → project; classification is consulted only when
enabled (and a prompt is present) and no higher default applies;
otherwise the global default engine is returned — and the resolution
always records the observed topic/chat/project default values. -/
theorem c4_resolution_precedence
    (project_default_engine : Option EngineId) (default_engine : EngineId)
    (classify_task : String → ClassificationResult)
    (explicit_engine : Option EngineId) (chat_id : Int)
    (topic_key : Option (Int × Int))
    (topic_store : Option (Int × Int → Option EngineId))
    (chat_prefs : Option (Int → Option EngineId))
    (prompt : Option String) (auto_classify : Bool) :
    (resolve_engine_for_message project_default_engine default_engine classify_task
        explicit_engine chat_id topic_key topic_store chat_prefs prompt
        auto_classify).topic_default = observed_topic_default topic_store topic_key ∧
    (resolve_engine_for_message project_default_engine default_engine classify_task
        explicit_engine chat_id topic_key topic_store chat_prefs prompt
        auto_classify).chat_default = observed_chat_default chat_prefs chat_id ∧
    (resolve_engine_for_message project_default_engine default_engine classify_task
        explicit_engine chat_id topic_key topic_store chat_prefs prompt
        auto_classify).project_default = project_default_engine ∧
    (∀ e, explicit_engine = some e →
      (resolve_engine_for_message project_default_engine default_engine classify_task
          explicit_engine chat_id topic_key topic_store chat_prefs prompt
          auto_classify).engine = e ∧
      (resolve_engine_for_message project_default_engine default_engine classify_task
          explicit_engine chat_id topic_key topic_store chat_prefs prompt
          auto_classify).source = .directive) ∧
    (explicit_engine = none →
      ∀ e, observed_topic_default topic_store topic_key = some e →
      (resolve_engine_for_message project_default_engine default_engine classify_task
          explicit_engine chat_id topic_key topic_store chat_prefs prompt
          auto_classify).engine = e ∧
      (resolve_engine_for_message project_default_engine default_engine classify_task
          explicit_engine chat_id topic_key topic_store chat_prefs prompt
          auto_classify).source = .topic_default) ∧
    (explicit_engine = none → observed_topic_default topic_store topic_key = none →
      ∀ e, observed_chat_default chat_prefs chat_id = some e →
      (resolve_engine_for_message project_default_engine default_engine classify_task
          explicit_engine chat_id topic_key topic_store chat_prefs prompt
          auto_classify).engine = e ∧
      (resolve_engine_for_message project_default_engine default_engine classify_task
          explicit_engine chat_id topic_key topic_store chat_prefs prompt
          auto_classify).source = .chat_default) ∧
    (explicit_engine = none → observed_topic_default topic_store topic_key = none →
      observed_chat_default chat_prefs chat_id = none →
      ∀ e, project_default_engine = some e →
      (resolve_engine_for_message project_default_engine default_engine classify_task
          explicit_engine chat_id topic_key topic_store chat_prefs prompt
          auto_classify).engine = e ∧
      (resolve_engine_for_message project_default_engine default_engine classify_task
          explicit_engine chat_id topic_key topic_store chat_prefs prompt
          auto_classify).source = .project_default) ∧
    (explicit_engine = none → observed_topic_default topic_store topic_key = none →
      observed_chat_default chat_prefs chat_id = none →
      project_default_engine = none → auto_classify = true →
      ∀ pr, prompt = some pr →
      (resolve_engine_for_message project_default_engine default_engine classify_task
          explicit_engine chat_id topic_key topic_store chat_prefs prompt
          auto_classify).engine = (classify_task pr).engine ∧
      (resolve_engine_for_message project_default_engine default_engine classify_task
          explicit_engine chat_id topic_key topic_store chat_prefs prompt
          auto_classify).source = .auto_classified ∧
      (resolve_engine_for_message project_default_engine default_engine classify_task
          explicit_engine chat_id topic_key topic_store chat_prefs prompt
          auto_classify).model_override = (classify_task pr).model) ∧
    (explicit_engine = none → observed_topic_default topic_store topic_key = none →
      observed_chat_default chat_prefs chat_id = none →
      project_default_engine = none →
      (auto_classify = false ∨ prompt = none) →
      (resolve_engine_for_message project_default_engine default_engine classify_task
          explicit_engine chat_id topic_key topic_store chat_prefs prompt
          auto_classify).engine = default_engine ∧
      (resolve_engine_for_message project_default_engine default_engine classify_task
          explicit_engine chat_id topic_key topic_store chat_prefs prompt
          auto_classify).source = .global_default) ∧
    ((resolve_engine_for_message project_default_engine default_engine classify_task
        explicit_engine chat_id topic_key topic_store chat_prefs prompt
        auto_classify).source = .auto_classified →
      explicit_engine = none ∧ observed_topic_default topic_store topic_key = none ∧
      observed_chat_default chat_prefs chat_id = none ∧
      project_default_engine = none ∧ auto_classify = true ∧ prompt ≠ none) := by
  rcases hexp : explicit_engine with _ | e <;>
    rcases ht : observed_topic_default topic_store topic_key with _ | t <;>
      rcases hc : observed_chat_default chat_prefs chat_id with _ | c <;>
        rcases hp : project_default_engine with _ | p <;>
          rcases hauto : auto_classify <;>
            rcases hpr : prompt with _ | pr <;>
              simp [resolve_engine_for_message, hexp, ht, hc, hp, hauto, hpr]

theorem c4_resolution_precedence_witness :
    (resolve_engine_for_message none "claude" classify_with_keywords
        (some "codex") 0 none none none none false).engine = "codex" ∧
    (resolve_engine_for_message none "claude" classify_with_keywords
        (some "codex") 0 none none none none false).source = .directive :=
  (c4_resolution_precedence none "claude" classify_with_keywords
      (some "codex") 0 none none none none false).2.2.2.1 "codex" rfl

/-- C7: the claim fails for a configured maximum of 0: Python's
`runs[-0:]` is `runs[0:]`, the whole list, so an oversized history
(1 run > max 0) is persisted with 1 record, not 0. -/
theorem c7_zero_max_counterexample :
    (HeartbeatState.mk "hb" none none [runA] 0).max_runs
      < (HeartbeatState.mk "hb" none none [runA] 0).runs.length ∧
    (save_state (HeartbeatState.mk "hb" none none [runA] 0)).runs.length = 1 ∧
    (save_state (HeartbeatState.mk "hb" none none [runA] 0)).runs.length
      ≠ (HeartbeatState.mk "hb" none none [runA] 0).max_runs := by
  refine ⟨by decide, by decide, by decide⟩

/-- C7 (amended): for every state with a positive configured maximum,
an oversized history is persisted with exactly `max_runs` records —
the suffix of the run list, i.e. the most recent entries in
most-recent-last order — and a history at or below the maximum is
persisted unchanged. -/
theorem c7_history_trimming (state : HeartbeatState) (hmax : 0 < state.max_runs) :
    (state.max_runs < state.runs.length →
      (save_state state).runs = state.runs.drop (state.runs.length - state.max_runs) ∧
      (save_state state).runs.length = state.max_runs ∧
      (save_state state).session_id = state.session_id ∧
      (save_state state).last_run_at = state.last_run_at) ∧
    (state.runs.length ≤ state.max_runs → save_state state = state) := by
  constructor
  · intro hover
    unfold save_state sliceLastPy
    rw [if_pos hover, if_neg (by omega)]
    refine ⟨rfl, ?_, rfl, rfl⟩
    simp only [List.length_drop]
    omega
  · intro hle
    unfold save_state
    rw [if_neg (by omega)]

theorem c7_history_trimming_witness :
    (save_state (HeartbeatState.mk "hb" none none [runA, runB] 1)).runs
      = [runA, runB].drop ([runA, runB].length - 1) ∧
    (save_state (HeartbeatState.mk "hb" none none [runA, runB] 1)).runs.length = 1 ∧
    (save_state (HeartbeatState.mk "hb" none none [runA, runB] 1)).session_id = none ∧
    (save_state (HeartbeatState.mk "hb" none none [runA, runB] 1)).last_run_at = none :=
  (c7_history_trimming (HeartbeatState.mk "hb" none none [runA, runB] 1)
    (by decide)).1 (by decide)

theorem parseVarName_tail_lt (l : List Char) (name tail : List Char)
    (h : parseVarName l = some (name, tail)) : tail.length < l.length := by
  rcases l with _ | ⟨c, rest⟩
  · simp [parseVarName] at h
  · simp only [parseVarName] at h
    split at h
    · rename_i hstart
      generalize hdw : rest.dropWhile isNameChar = dw at h
      have hlen : dw.length ≤ rest.length := by
        rw [← hdw]
        exact (List.dropWhile_sublist isNameChar).length_le
      rcases dw with _ | ⟨d, t⟩
      · simp at h
      · dsimp only at h
        split at h
        · have htail : t = tail := congrArg Prod.snd (Option.some.inj h)
          subst htail
          simp only [List.length_cons] at hlen ⊢
          omega
        · simp at h
    · simp at h

@[simp] theorem data_mk (l : List Char) : (String.mk l).data = l := rfl

theorem isNameChar_rbrace : isNameChar rbrace = false := by decide

theorem dropWhile_name (l suffix : List Char) (hl : l.all isNameChar = true) :
    (l ++ rbrace :: suffix).dropWhile isNameChar = rbrace :: suffix := by
  induction l with
  | nil => simp [List.dropWhile, isNameChar_rbrace]
  | cons c t ih =>
    simp only [List.all_cons, Bool.and_eq_true] at hl
    simp [List.dropWhile, hl.1, ih hl.2]

theorem takeWhile_name (l suffix : List Char) (hl : l.all isNameChar = true) :
    (l ++ rbrace :: suffix).takeWhile isNameChar = l := by
  induction l with
  | nil => simp [List.takeWhile, isNameChar_rbrace]
  | cons c t ih =>
    simp only [List.all_cons, Bool.and_eq_true] at hl
    simp [List.takeWhile, hl.1, ih hl.2]

/-- A well-formed reference parses exactly: the whole name is consumed
and scanning resumes right after the closing brace. -/
theorem parseVarName_exact (name suffix : List Char) (h : isValidVarName name = true) :
    parseVarName (name ++ rbrace :: suffix) = some (name, suffix) := by
  rcases name with _ | ⟨c, rest⟩
  · simp [isValidVarName] at h
  · simp only [isValidVarName, Bool.and_eq_true] at h
    obtain ⟨hstart, hall⟩ := h
    simp only [List.cons_append, parseVarName, if_pos hstart]
    rw [dropWhile_name rest suffix hall, takeWhile_name rest suffix hall]
    simp

/-- C8: for every environment, clock, well-formed variable name and
continuation text, expansion replaces `${NAME}` by the built-in date
for `TODAY` and the built-in time for `NOW` regardless of the
environment (built-ins take precedence over same-named environment
variables); every other reference is replaced by the environment
value when set and left verbatim when unset — and scanning continues
on the rest of the text. -/
theorem c8_env_expansion (today now : String) (env : String → Option String)
    (name suffix : String) (h : isValidVarName name.data = true) :
    expand_env_vars today now env (varRef name ++ suffix)
      = (if name = "TODAY" then today
         else if name = "NOW" then now
         else
           match env name with
           | some v => v
           | none => varRef name) ++ expand_env_vars today now env suffix := by
  apply String.ext
  rw [String.data_append]
  have hdata : (varRef name ++ suffix).data
      = '$' :: lbrace :: (name.data ++ rbrace :: suffix.data) := by
    rw [String.data_append]
    simp [varRef]
  have key : expandChars today now env ('$' :: lbrace :: (name.data ++ rbrace :: suffix.data))
      = replaceVar today now env name.data ++ expandChars today now env suffix.data := by
    simp only [expandChars, if_true]
    split
    · rename_i name' tail' hpv
      rw [parseVarName_exact name.data suffix.data h] at hpv
      have hn : name.data = name' := congrArg Prod.fst (Option.some.inj hpv)
      have ht : suffix.data = tail' := congrArg Prod.snd (Option.some.inj hpv)
      rw [← hn, ← ht]
    · rename_i hpv
      rw [parseVarName_exact name.data suffix.data h] at hpv
      simp at hpv
  have hrep : replaceVar today now env name.data
      = (if name = "TODAY" then today
         else if name = "NOW" then now
         else
           match env name with
           | some v => v
           | none => varRef name).data := by
    unfold replaceVar
    have hmk : String.mk name.data = name := rfl
    rw [hmk]
    split_ifs with h1 h2
    · rfl
    · rfl
    · cases henv : env name with
      | some v => rfl
      | none => simp [varRef]
  simp only [expand_env_vars, data_mk, hdata, key, hrep]

theorem foldl_stepEvent_session (events : List SessionEvent) :
    ∀ acc : RunAcc, (∀ e ∈ events, eventHasResume e = false) →
      (events.foldl stepEvent acc).session_id = acc.session_id := by
  induction events with
  | nil => intro acc _; rfl
  | cons e es ih =>
    intro acc hall
    have he := hall e (by simp)
    have hes : ∀ x ∈ es, eventHasResume x = false := fun x hx => hall x (by simp [hx])
    rw [List.foldl_cons, ih _ hes]
    cases e with
    | started r => simp [eventHasResume] at he
    | completed ok ans err us resume =>
      cases resume with
      | some r => simp [eventHasResume] at he
      | none => rfl

theorem runEvents_session_id (init : Option String) (events : List SessionEvent)
    (exc : Option String) (h : ∀ e ∈ events, eventHasResume e = false) :
    (runEvents init events exc).session_id = init := by
  unfold runEvents
  cases exc <;> simp [foldl_stepEvent_session events _ h]

theorem save_state_session_id (st : HeartbeatState) :
    (save_state st).session_id = st.session_id := by
  unfold save_state
  split <;> rfl

theorem save_state_last_run_at (st : HeartbeatState) :
    (save_state st).last_run_at = st.last_run_at := by
  unfold save_state
  split <;> rfl

theorem save_state_runs_append (st : HeartbeatState) (pre : List HeartbeatRun)
    (r : HeartbeatRun) (hruns : st.runs = pre ++ [r]) :
    ∃ pre2, (save_state st).runs = pre2 ++ [r] := by
  unfold save_state sliceLastPy
  split
  · split
    · exact ⟨pre, hruns⟩
    · rename_i hover hm
      have hle : (pre ++ [r]).length - st.max_runs ≤ pre.length := by
        simp only [List.length_append, List.length_cons, List.length_nil]
        omega
      refine ⟨pre.drop ((pre ++ [r]).length - st.max_runs), ?_⟩
      conv_lhs => rw [hruns]
      rw [List.drop_append_eq_append_drop, Nat.sub_eq_zero_of_le hle, List.drop_zero]
  · exact ⟨pre, hruns⟩

/-- C9: when the event stream carries no resume token before ending or
raising, the persisted `session_id` equals the loaded one (a failed or
token-less run never clears a stored resume value), while the run
record is still appended and the last-run timestamp still updated. -/
theorem c9_tokenless_run_preserves_session (state : HeartbeatState)
    (events : List SessionEvent) (exc : Option String)
    (started_at completed_at : String) (duration_ms : Nat)
    (h : ∀ e ∈ events, eventHasResume e = false) :
    (run_heartbeat_saved state events exc started_at completed_at duration_ms).session_id
      = state.session_id ∧
    (run_heartbeat_saved state events exc started_at completed_at duration_ms).last_run_at
      = some completed_at ∧
    ∃ pre, (run_heartbeat_saved state events exc started_at completed_at duration_ms).runs
      = pre ++ [heartbeat_run_record started_at completed_at duration_ms
          (runEvents state.session_id events exc)] := by
  refine ⟨?_, ?_, ?_⟩
  · unfold run_heartbeat_saved
    rw [save_state_session_id]
    exact runEvents_session_id state.session_id events exc h
  · unfold run_heartbeat_saved
    rw [save_state_last_run_at]
  · unfold run_heartbeat_saved
    exact save_state_runs_append _ state.runs _ rfl

theorem c9_tokenless_run_witness :
    (run_heartbeat_saved (HeartbeatState.mk "hb" (some "sess-1") none [] 50)
        [SessionEvent.completed true "done" none none none] none
        "t0" "t1" 5).session_id = some "sess-1" :=
  (c9_tokenless_run_preserves_session (HeartbeatState.mk "hb" (some "sess-1") none [] 50)
    [SessionEvent.completed true "done" none none none] none "t0" "t1" 5 (by decide)).1

theorem deliverFrom_spec (send_ok : Nat → Bool) :
    ∀ (messages : List String) (idx : Nat),
      ((deliverFrom send_ok idx messages).map Prod.fst
        = messages.take (deliverFrom send_ok idx messages).length) ∧
      (∀ i x, (deliverFrom send_ok idx messages)[i]? = some x →
        x.2 = if 0 < idx + i then some true else none) ∧
      (∀ i, i + 1 < (deliverFrom send_ok idx messages).length → send_ok (idx + i) = true) ∧
      ((∀ i, i < messages.length → send_ok (idx + i) = true) →
        (deliverFrom send_ok idx messages).length = messages.length) := by
  intro messages
  induction messages with
  | nil =>
    intro idx
    refine ⟨rfl, ?_, ?_, ?_⟩ <;> intro i <;> simp [deliverFrom]
  | cons m rest ih =>
    intro idx
    by_cases hs : send_ok idx = true
    · obtain ⟨ih1, ih2, ih3, ih4⟩ := ih (idx + 1)
      have hunf : deliverFrom send_ok idx (m :: rest)
          = (m, if 0 < idx then some true else none) :: deliverFrom send_ok (idx + 1) rest := by
        simp [deliverFrom, hs]
      refine ⟨?_, ?_, ?_, ?_⟩
      · rw [hunf]
        simp only [List.map_cons, List.length_cons, List.take_succ_cons]
        rw [ih1]
      · intro i x hx
        rw [hunf] at hx
        rcases i with _ | i
        · simp only [List.getElem?_cons_zero, Option.some.injEq] at hx
          subst hx
          rfl
        · simp only [List.getElem?_cons_succ] at hx
          have hx2 := ih2 i x hx
          rw [hx2]
          split_ifs with hc1 hc2 <;> first | rfl | omega
      · intro i hi
        rw [hunf] at hi
        simp only [List.length_cons] at hi
        rcases i with _ | i
        · simpa using hs
        · have := ih3 i (by omega)
          have harith : idx + 1 + i = idx + (i + 1) := by omega
          rwa [harith] at this
      · intro hall
        rw [hunf]
        simp only [List.length_cons]
        rw [ih4]
        intro i hi
        have := hall (i + 1) (by simp; omega)
        have harith : idx + (i + 1) = idx + 1 + i := by omega
        rwa [harith] at this
    · have hunf : deliverFrom send_ok idx (m :: rest)
          = [(m, if 0 < idx then some true else none)] := by
        simp [deliverFrom, hs]
      refine ⟨?_, ?_, ?_, ?_⟩
      · rw [hunf]
        rfl
      · intro i x hx
        rw [hunf] at hx
        rcases i with _ | i
        · simp only [List.getElem?_cons_zero, Option.some.injEq] at hx
          subst hx
          rfl
        · simp at hx
      · intro i hi
        rw [hunf] at hi
        simp at hi
      · intro hall
        exact absurd (by simpa using hall 0 (by simp)) hs

/-- C6: delivery sends the formatted chunks in order (the performed
calls are a prefix of the message list); the first call is sent with
`disable_notification=None` and every later call with
`disable_notification=True` (alerts suppressed); every call except
possibly the last returned success, so no chunk is sent after the
first failed send; and when every send succeeds, every chunk is
sent. -/
theorem c6_delivery_order_and_stop (send_ok : Nat → Bool) (messages : List String) :
    ((deliver_notifications send_ok messages).map Prod.fst
      = messages.take (deliver_notifications send_ok messages).length) ∧
    (∀ x, (deliver_notifications send_ok messages)[0]? = some x → x.2 = none) ∧
    (∀ i x, 0 < i → (deliver_notifications send_ok messages)[i]? = some x →
      x.2 = some true) ∧
    (∀ i, i + 1 < (deliver_notifications send_ok messages).length → send_ok i = true) ∧
    ((∀ i, i < messages.length → send_ok i = true) →
      (deliver_notifications send_ok messages).length = messages.length) := by
  obtain ⟨h1, h2, h3, h4⟩ := deliverFrom_spec send_ok messages 0
  refine ⟨h1, ?_, ?_, ?_, ?_⟩
  · intro x hx
    have := h2 0 x hx
    simpa using this
  · intro i x hi hx
    have := h2 i x hx
    rw [this]
    simp [hi]
  · intro i hi
    simpa using h3 i hi
  · intro hall
    exact h4 (by simpa using hall)

theorem c6_delivery_witness :
    (deliver_notifications (fun _ => true) ["head", "pre1"]).length = ["head", "pre1"].length :=
  (c6_delivery_order_and_stop (fun _ => true) ["head", "pre1"]).2.2.2.2 (fun _ _ => rfl)

example :
    format_notification_messages "t" (HeartbeatResult.mk true "hi" none 5000 none none) 10
      = ["<b>✅ t</b>\nDuration: 5.0s", "<pre>hi</pre>"] := by decide

example :
    format_notification_messages "t" (HeartbeatResult.mk false "" none 61500 none (some "boom")) 10
      = ["<b>❌ t</b>\nDuration: 1m1s\n<b>Error:</b> boom"] := by decide

/-- C10: for every heartbeat result — including an empty answer, no
usage and no error — the formatted notification is a non-empty list
whose first message is the header (status marker, escaped task name
and rendered duration, in that order); the summary `<pre>` chunks are
exactly the messages after the first, so they never appear inside the
header message. -/
theorem c10_messages_shape (name : String) (result : HeartbeatResult)
    (summary_lines : Nat) :
    format_notification_messages name result summary_lines ≠ [] ∧
    (format_notification_messages name result summary_lines).head?
      = some (notification_header name result) ∧
    (format_notification_messages name result summary_lines).tail
      = (split_for_html_pre (extract_summary result.answer summary_lines)
          (TELEGRAM_MESSAGE_MAX_CHARS - PRE_OVERHEAD_CHARS)).map
          (fun chunk => "<pre>" ++ html_escape chunk ++ "</pre>") ∧
    ∃ restHeader, notification_header name result
      = "<b>" ++ (if result.ok then "✅" else "❌") ++ " " ++ html_escape name ++ "</b>"
        ++ "\n" ++ "Duration: " ++ formatDuration result.duration_ms ++ restHeader := by
  refine ⟨?_, ?_, ?_, ?_⟩
  · unfold format_notification_messages
    dsimp only
    split <;> simp
  · unfold format_notification_messages
    dsimp only
    split <;> rfl
  · unfold format_notification_messages
    dsimp only
    split
    · rename_i hsum
      rw [hsum]
      rfl
    · rfl
  · unfold notification_header
    dsimp only
    rcases result.error with _ | e
    · refine ⟨(match costOf result.usage with
        | some c => " ($" ++ formatCost4 c ++ ")"
        | none => ""), ?_⟩
      apply String.ext
      simp [joinNl, String.data_append, List.append_assoc]
    · by_cases he : e = ""
      · refine ⟨(match costOf result.usage with
          | some c => " ($" ++ formatCost4 c ++ ")"
          | none => ""), ?_⟩
        apply String.ext
        simp [he, joinNl, String.data_append, List.append_assoc]
      · refine ⟨(match costOf result.usage with
          | some c => " ($" ++ formatCost4 c ++ ")"
          | none => "") ++ "\n"
            ++ ("<b>Error:</b> " ++ html_escape (String.mk (e.data.take 500))), ?_⟩
        apply String.ext
        simp [he, joinNl, String.data_append, List.append_assoc]

theorem c8_env_expansion_witness :
    expand_env_vars "2026-10-12" "09:00"
        (fun v => if v = "TODAY" then some "от env" else none)
        (varRef "TODAY" ++ "!")
      = (if "TODAY" = "TODAY" then "2026-10-12"
         else if "TODAY" = "NOW" then "09:00"
         else
           match (fun v => if v = "TODAY" then some "от env" else none) "TODAY" with
           | some v => v
           | none => varRef "TODAY")
        ++ expand_env_vars "2026-10-12" "09:00"
            (fun v => if v = "TODAY" then some "от env" else none) "!" :=
  c8_env_expansion "2026-10-12" "09:00"
    (fun v => if v = "TODAY" then some "от env" else none) "TODAY" "!" (by decide)

end Takopi
